import Mathlib

/-!
Shallow embedding of `packages/remix-node/upload/fileUploadHandler.ts`:
the bounded streaming file-upload handler (`createFileUploadHandler`,
`uniqueFile`) and the lazy on-disk file handle (`NodeOnDiskFile`).

Modelling conventions:
* Bytes are `Nat`; byte buffers are `List Nat`; the incoming multipart
  stream is a finite list of chunks (`List (List Nat)`).
* The filesystem is an association list from path to file contents.
  Directories are not modelled (`mkdir` failures are swallowed by the
  source, and no claim depends on directory state).
* Filesystem side effects are additionally recorded as an event trace
  (`Ev`), so that claims about which operations happen (writes, handle
  closes, deletions, stream opens) are statable.
* `new Date().getTime()` reads inside the `uniqueFile` probe loop are
  supplied as a list of timestamps; the handler returns `none` when the
  supplied list is exhausted while every candidate still exists (the
  source would keep probing the clock in that situation).
* The external `stream-slice` transform (`streamSlice.slice(start, end)`)
  is modelled by `Slicer`: a stateful pass-through of the byte window
  `[start, end)` of everything piped into it.  As in Node streams, the
  transform ends when the first piped source ends; piping into an ended
  stream fails (`write after end`).
-/

/-- A byte buffer (Node `Buffer` / `Uint8Array`), one `Nat` per byte. -/
abbrev Bytes := List Nat

/-- The filesystem: an association list from absolute path to contents. -/
abbrev FS := List (String × Bytes)

/-- Contents stored at a path, if the file exists. -/
def FS.lookup (fs : FS) (p : String) : Option Bytes :=
  (fs.find? (fun e => e.1 == p)).map (·.2)

/-- Existence check (`stat` succeeding). -/
def FS.hasPath (fs : FS) (p : String) : Bool :=
  (FS.lookup fs p).isSome

/-- Create or truncate-and-replace the file at `p` with contents `v`. -/
def FS.set (fs : FS) (p : String) (v : Bytes) : FS :=
  (p, v) :: fs.filter (fun e => e.1 != p)

/-- Delete the file at `p` (`rm`); deleting a missing file is a no-op. -/
def FS.remove (fs : FS) (p : String) : FS :=
  fs.filter (fun e => e.1 != p)

/-- Filesystem events performed by the handler and the file handle. -/
inductive Ev where
  /-- `stat` existence probe on a path. -/
  | statE : String → Ev
  /-- `mkdir -p` of the parent directory. -/
  | mkdirE : String → Ev
  /-- `createWriteStream` opening the destination. -/
  | openW : String → Ev
  /-- one `writeFileStream.write(chunk)` call. -/
  | writeE : String → Bytes → Ev
  /-- `writeFileStream.close()`. -/
  | closeW : String → Ev
  /-- `rm` of the partial file. -/
  | rmE : String → Ev
  /-- `createReadStream` opening the backing file for a read. -/
  | openR : String → Ev
deriving DecidableEq, Repr

/-- Modelled from the spec: the `MeterError` thrown on size-limit excess
(`@remix-run/server-runtime` is outside the excerpt).  The spec:
"SizeLimitExceeded: ... Carries the field name and the configured limit." -/
structure MeterError where
  field : String
  limit : Nat
deriving DecidableEq, Repr

/-- Errors surfaced lazily by read operations on `NodeOnDiskFile`. -/
inductive ReadErr where
  /-- the backing path is missing at read time. -/
  | fileMissing
  /-- a fresh read stream was piped into an already-ended slicer stream. -/
  | writeAfterEnd
deriving DecidableEq, Repr

/-- Characters of `basename p`: everything after the last separator. -/
def basenameChars (cs : List Char) : List Char :=
  (cs.reverse.takeWhile (fun c => c != '/')).reverse

/-- Node `path.extname` on characters: the suffix of the basename from
its last dot, empty when there is no dot or the only dot starts the
basename. -/
def extnameCharsOf (cs : List Char) : List Char :=
  let b := basenameChars cs
  let afterDot := b.reverse.takeWhile (fun c => c != '.')
  if afterDot.length = b.length then []
  else if b.length - afterDot.length - 1 = 0 then []
  else '.' :: afterDot.reverse

/-- Node `path.extname` as a string. -/
def extnameStr (p : String) : String :=
  String.mk (extnameCharsOf p.toList)

/-- JS `filepath.slice(0, -ext.length)`: drop the extension suffix. -/
def stripExtStr (p : String) (ext : String) : String :=
  String.mk (p.toList.take (p.toList.length - ext.toList.length))

/-- Node `path.basename` as a string. -/
def basenameStr (p : String) : String :=
  String.mk (basenameChars p.toList)

/-- Everything before the basename (`path.dirname`, simplified model). -/
def dirnameStr (p : String) : String :=
  String.mk (p.toList.take (p.toList.length - (basenameChars p.toList).length))

/-- Does the path start with the separator (absolute path)? -/
def startsWithSlash (p : String) : Bool :=
  match p.toList with
  | [] => false
  | c :: _ => c == '/'

/-- Model of one-argument `path.resolve` with cwd `/`. -/
def resolveAbs (p : String) : String :=
  if startsWithSlash p then p else "/" ++ p

/-- Model of two-argument `path.resolve(filedir, path)`. -/
def resolveJoin (d p : String) : String :=
  if startsWithSlash p then p else d ++ "/" ++ p

/-- State of one `stream-slice` transform: the configured window, how many
bytes have been piped through so far, and whether the stream has ended. -/
structure Slicer where
  lo : Int
  hi : Int
  passed : Nat
  ended : Bool
deriving DecidableEq, Repr

/-- Bytes the slicer emits when `bs` is written after `passed` earlier
bytes: those whose global index lies in the window `[lo, hi)`. -/
def windowBytes (lo hi : Int) (passed : Nat) (bs : Bytes) : Bytes :=
  (bs.take (hi - passed).toNat).drop (lo - passed).toNat

/-- The `NodeOnDiskFile` class: path, size, content type, and the slicer
transform stream installed by `slice` (shared across reads, as in the
source where the constructor stores the stream object itself). -/
structure NodeOnDiskFile where
  filepath : String
  size : Int
  type : String
  slicer : Option Slicer
deriving DecidableEq, Repr

/-- `this.name = basename(filepath)` from the constructor. -/
def NodeOnDiskFile.name (f : NodeOnDiskFile) : String :=
  basenameStr f.filepath

/-- `slice(start, end, contentType)`: defaults `start` to `0` and `end` to
`this.size`, and builds a new handle on the same path with size
`end - start` and a freshly created slicer stream.  The `contentType`
argument is accepted but never used. -/
def NodeOnDiskFile.slice (f : NodeOnDiskFile) (start? end? : Option Int)
    (_contentType? : Option String) : NodeOnDiskFile :=
  let s := start?.getD 0
  let e := end?.getD f.size
  { filepath := f.filepath
    size := e - s
    type := f.type
    slicer := some { lo := s, hi := e, passed := 0, ended := false } }

/-- `arrayBuffer()`: open a fresh read stream on the backing path, pipe it
through the stored slicer when present, and collect every emitted chunk.
Returns the collected bytes (or the lazily-raised error), the handle with
its slicer stream's post-call state, and the event trace. -/
def NodeOnDiskFile.arrayBuffer (fs : FS) (f : NodeOnDiskFile) :
    Except ReadErr Bytes × NodeOnDiskFile × List Ev :=
  match FS.lookup fs f.filepath with
  | none => (Except.error ReadErr.fileMissing, f, [Ev.openR f.filepath])
  | some bs =>
    match f.slicer with
    | none => (Except.ok bs, f, [Ev.openR f.filepath])
    | some st =>
      if st.ended then
        (Except.error ReadErr.writeAfterEnd, f, [Ev.openR f.filepath])
      else
        (Except.ok (windowBytes st.lo st.hi st.passed bs),
         { f with slicer := some ⟨st.lo, st.hi, st.passed + bs.length, true⟩ },
         [Ev.openR f.filepath])

/-- Modelled from the spec: `readableStreamToString` from
`packages/remix-node/stream.ts` (outside the excerpt) decodes the
streamed bytes "to text using a default text encoding" (UTF-8). -/
def readableStreamToString (bs : Bytes) : String :=
  (String.fromUTF8? (ByteArray.mk (bs.map (fun n => UInt8.ofNat n)).toArray)).getD ""

/-- `text()`: open a fresh read stream on the backing path, pipe it
through the stored slicer when present, and decode the streamed bytes. -/
def NodeOnDiskFile.text (fs : FS) (f : NodeOnDiskFile) :
    Except ReadErr String × NodeOnDiskFile × List Ev :=
  match FS.lookup fs f.filepath with
  | none => (Except.error ReadErr.fileMissing, f, [Ev.openR f.filepath])
  | some bs =>
    match f.slicer with
    | none => (Except.ok (readableStreamToString bs), f, [Ev.openR f.filepath])
    | some st =>
      if st.ended then
        (Except.error ReadErr.writeAfterEnd, f, [Ev.openR f.filepath])
      else
        (Except.ok (readableStreamToString (windowBytes st.lo st.hi st.passed bs)),
         { f with slicer := some ⟨st.lo, st.hi, st.passed + bs.length, true⟩ },
         [Ev.openR f.filepath])

/-- A string-or-resolver configuration value (`directory` / `file`). -/
inductive PathConfig where
  /-- a literal string path. -/
  | lit : String → PathConfig
  /-- a resolver `(name, filename, contentType) -> string | undefined`. -/
  | resolver : (String → String → String → Option String) → PathConfig

/-- The `FileUploadHandlerOptions` after defaulting (the default `file`
resolver draws random bytes, so it is supplied, not baked in). -/
structure UploadConfig where
  directory : PathConfig
  avoidFileConflicts : Bool
  file : PathConfig
  filter : Option (String → String → String → Bool)
  maxFileSize : Nat

/-- One multipart field as passed to the upload handler. -/
structure UploadPart where
  name : String
  filename : String
  contentType : String
  data : List Bytes
deriving DecidableEq, Repr

/-- Sum of all streamed chunk lengths. -/
def totalLen (data : List Bytes) : Nat :=
  (data.map List.length).sum

/-- `if (filter && !(await filter({ name, filename, contentType })))`. -/
def filterPasses (cfg : UploadConfig) (part : UploadPart) : Bool :=
  match cfg.filter with
  | none => true
  | some fl => fl part.name part.filename part.contentType

/-- JS truthiness on an optional string: `undefined` and `""` are falsy. -/
def truthyStr (v : Option String) : Option String :=
  match v with
  | none => none
  | some s => if s.isEmpty then none else some s

/-- The resolved `dir` value, `none` when the field is to be skipped. -/
def dirValue (cfg : UploadConfig) (part : UploadPart) : Option String :=
  match cfg.directory with
  | PathConfig.lit s => truthyStr (some s)
  | PathConfig.resolver r => truthyStr (r part.name part.filename part.contentType)

/-- The resolved `path` value, `none` when the field is to be skipped. -/
def fileValue (cfg : UploadConfig) (part : UploadPart) : Option String :=
  match cfg.file with
  | PathConfig.lit s => truthyStr (some s)
  | PathConfig.resolver r => truthyStr (r part.name part.filename part.contentType)

/-- The candidate derived inside `uniqueFile`'s loop body:
`(ext ? filepath.slice(0, -ext.length) : filepath)` + `-${time}` + ext. -/
def timestampCandidate (filepath : String) (t : Nat) : String :=
  let ext := extnameStr filepath
  let base := if ext = "" then filepath else stripExtStr filepath ext
  base ++ "-" ++ toString t ++ ext

/-- The probe loop of `uniqueFile`: while the current candidate exists,
derive a fresh candidate from the original path and the next clock read.
Returns `none` when the supplied clock reads run out (the source would
keep reading the clock). -/
def uniqueFileAux (fs : FS) (orig : String) (cand : String) :
    List Nat → Option String × List Ev
  | [] =>
    if FS.hasPath fs cand then (none, [Ev.statE cand])
    else (some cand, [Ev.statE cand])
  | t :: ts =>
    if FS.hasPath fs cand then
      let r := uniqueFileAux fs orig (timestampCandidate orig t) ts
      (r.1, Ev.statE cand :: r.2)
    else (some cand, [Ev.statE cand])

/-- `uniqueFile(filepath)`, starting from the resolved path itself. -/
def uniqueFile (fs : FS) (filepath : String) (ts : List Nat) :
    Option String × List Ev :=
  uniqueFileAux fs filepath filepath ts

/-- The conflict-avoidance step of the handler: probe only when
`avoidFileConflicts` is set. -/
def probeFilepath (cfg : UploadConfig) (ts : List Nat) (fs : FS)
    (filepath : String) : Option String × List Ev :=
  if cfg.avoidFileConflicts then uniqueFile fs filepath ts
  else (some filepath, [])

/-- The `for await (let chunk of data)` copy loop: accumulate the running
size, abort with `MeterError` once it exceeds `maxFileSize` (before the
crossing chunk is written), otherwise write the chunk.  Returns the bytes
written, the final running size, the `deleteFile` flag, the pending error,
and the write events. -/
def copyLoop (nm : String) (maxFS : Nat) (p : String) :
    List Bytes → Nat → Bytes → Bytes × Nat × Bool × Option MeterError × List Ev
  | [], size, acc => (acc, size, false, none, [])
  | chunk :: rest, size, acc =>
    let size' := size + chunk.length
    if maxFS < size' then (acc, size', true, some ⟨nm, maxFS⟩, [])
    else
      let r := copyLoop nm maxFS p rest size' (acc ++ chunk)
      (r.1, r.2.1, r.2.2.1, r.2.2.2.1, Ev.writeE p chunk :: r.2.2.2.2)

deriving instance DecidableEq for Except

/-- Result of one handler invocation: the returned value (or thrown
`MeterError`), the filesystem afterwards, and the event trace. -/
structure RunResult where
  result : Except MeterError (Option NodeOnDiskFile)
  fsAfter : FS
  trace : List Ev
deriving DecidableEq, Repr

/-- The handler returned by `createFileUploadHandler`, applied to one
field.  `ts` supplies the clock reads consumed by `uniqueFile`; the outer
`Option` is `none` only when those run out while every candidate exists. -/
def createFileUploadHandler (cfg : UploadConfig) (ts : List Nat) (fs : FS)
    (part : UploadPart) : Option RunResult :=
  if filterPasses cfg part = false then some ⟨Except.ok none, fs, []⟩
  else
    match dirValue cfg part with
    | none => some ⟨Except.ok none, fs, []⟩
    | some dir =>
      let filedir := resolveAbs dir
      match fileValue cfg part with
      | none => some ⟨Except.ok none, fs, []⟩
      | some path =>
        let filepath0 := resolveJoin filedir path
        match probeFilepath cfg ts fs filepath0 with
        | (none, _) => none
        | (some filepath, pevs) =>
          let evs1 := pevs ++ [Ev.mkdirE (dirnameStr filepath), Ev.openW filepath]
          let fs1 := FS.set fs filepath []
          let r := copyLoop part.name cfg.maxFileSize filepath part.data 0 []
          let written := r.1
          let size := r.2.1
          let deleteFile := r.2.2.1
          let errOpt := r.2.2.2.1
          let wevs := r.2.2.2.2
          let fs2 := FS.set fs1 filepath written
          let evs2 := evs1 ++ wevs ++ [Ev.closeW filepath]
          let fs3 := if deleteFile then FS.remove fs2 filepath else fs2
          let evs3 := if deleteFile then evs2 ++ [Ev.rmE filepath] else evs2
          match errOpt with
          | some e => some ⟨Except.error e, fs3, evs3⟩
          | none =>
            some ⟨Except.ok (some ⟨filepath, (size : Int), part.contentType, none⟩),
                  fs3, evs3⟩

/-- Run the handler on a sequence of fields (each with its own clock
reads), threading the filesystem; `none` when any invocation is skipped,
fails, or runs out of clock reads. -/
def runUploads (cfg : UploadConfig) (fs : FS) :
    List (UploadPart × List Nat) → Option (List NodeOnDiskFile × FS)
  | [] => some ([], fs)
  | (part, ts) :: rest =>
    match createFileUploadHandler cfg ts fs part with
    | some ⟨Except.ok (some f), fs', _⟩ =>
      (runUploads cfg fs' rest).map (fun r => (f :: r.1, r.2))
    | _ => none

/-- Index of the chunk whose accumulation first exceeds the remaining
budget (the chunk that crosses the size limit). -/
def crossIdx (budget : Nat) : List Bytes → Nat
  | [] => 0
  | c :: rest => if budget < c.length then 0 else crossIdx (budget - c.length) rest + 1

/-- Is this event a destination write? -/
def evIsWrite : Ev → Bool
  | Ev.writeE _ _ => true
  | _ => false

/-- Is this event a close of the destination write handle? -/
def evIsClose : Ev → Bool
  | Ev.closeW _ => true
  | _ => false

/-- Is this event an open of the destination write handle? -/
def evIsOpenW : Ev → Bool
  | Ev.openW _ => true
  | _ => false

/-- Does this event modify the filesystem (write, delete, mkdir, open
of a write handle, which truncates)? -/
def evIsMutation : Ev → Bool
  | Ev.writeE _ _ => true
  | Ev.rmE _ => true
  | Ev.mkdirE _ => true
  | Ev.openW _ => true
  | _ => false

/-! ### Filesystem lemmas -/

theorem FS.lookup_cons (e : String × Bytes) (fs : FS) (q : String) :
    FS.lookup (e :: fs) q = if e.1 = q then some e.2 else FS.lookup fs q := by
  by_cases h : e.1 = q
  · rw [if_pos h]
    simp only [FS.lookup]
    rw [List.find?_cons_of_pos _ (by simpa using h)]
    rfl
  · rw [if_neg h]
    simp only [FS.lookup]
    rw [List.find?_cons_of_neg _ (by simpa using h)]

theorem FS.lookup_remove (fs : FS) (p q : String) :
    FS.lookup (FS.remove fs p) q = if q = p then none else FS.lookup fs q := by
  induction fs with
  | nil => by_cases h : q = p <;> simp [FS.remove, FS.lookup, h]
  | cons e fs ih =>
    simp only [FS.remove] at *
    by_cases h1 : e.1 = p
    · rw [List.filter_cons_of_neg (by simp [h1]), ih, FS.lookup_cons]
      by_cases h2 : q = p
      · simp [h2]
      · have : ¬ e.1 = q := by rw [h1]; exact fun hq => h2 hq.symm
        simp [h2, this]
    · rw [List.filter_cons_of_pos (by simp [h1]), FS.lookup_cons, FS.lookup_cons, ih]
      by_cases h2 : e.1 = q
      · have : ¬ q = p := fun hq => h1 (h2.trans hq)
        simp [h2, this]
      · simp [h2]

theorem FS.lookup_set (fs : FS) (p q : String) (v : Bytes) :
    FS.lookup (FS.set fs p v) q = if q = p then some v else FS.lookup fs q := by
  have hs : FS.set fs p v = (p, v) :: FS.remove fs p := rfl
  rw [hs, FS.lookup_cons, FS.lookup_remove]
  by_cases h : q = p
  · simp [h]
  · have : ¬ p = q := fun hq => h hq.symm
    simp [h, this]

theorem FS.hasPath_iff (fs : FS) (p : String) :
    FS.hasPath fs p = true ↔ ∃ v, FS.lookup fs p = some v := by
  simp [FS.hasPath, Option.isSome_iff_exists]

/-! ### Copy-loop lemmas -/

theorem totalLen_cons (c : Bytes) (rest : List Bytes) :
    totalLen (c :: rest) = c.length + totalLen rest := by
  simp [totalLen]

theorem copyLoop_within (nm : String) (maxFS : Nat) (p : String) :
    ∀ (data : List Bytes) (size : Nat) (acc : Bytes),
    size + totalLen data ≤ maxFS →
    copyLoop nm maxFS p data size acc =
      (acc ++ data.flatten, size + totalLen data, false, none,
       data.map (Ev.writeE p)) := by
  intro data
  induction data with
  | nil =>
    intro size acc _
    simp [copyLoop, totalLen]
  | cons c rest ih =>
    intro size acc h
    rw [totalLen_cons] at h
    have hle : ¬ maxFS < size + c.length := by omega
    simp only [copyLoop]
    rw [if_neg hle, ih (size + c.length) (acc ++ c) (by omega)]
    simp [totalLen_cons, List.append_assoc, Nat.add_assoc]

theorem copyLoop_exceed (nm : String) (maxFS : Nat) (p : String) :
    ∀ (data : List Bytes) (size : Nat) (acc : Bytes),
    size ≤ maxFS → maxFS < size + totalLen data →
    ∃ sz, copyLoop nm maxFS p data size acc =
      (acc ++ (data.take (crossIdx (maxFS - size) data)).flatten, sz, true,
       some ⟨nm, maxFS⟩,
       (data.take (crossIdx (maxFS - size) data)).map (Ev.writeE p)) := by
  intro data
  induction data with
  | nil =>
    intro size acc h1 h2
    rw [show totalLen [] = 0 from rfl] at h2
    omega
  | cons c rest ih =>
    intro size acc h1 h2
    rw [totalLen_cons] at h2
    by_cases hc : maxFS < size + c.length
    · have hx : maxFS - size < c.length := by omega
      refine ⟨size + c.length, ?_⟩
      simp only [copyLoop, crossIdx]
      rw [if_pos hc, if_pos hx]
      simp
    · have h1' : size + c.length ≤ maxFS := by omega
      obtain ⟨sz, hsz⟩ := ih (size + c.length) (acc ++ c) h1' (by omega)
      refine ⟨sz, ?_⟩
      have hx : ¬ maxFS - size < c.length := by omega
      have hbud : maxFS - (size + c.length) = maxFS - size - c.length := by omega
      rw [hbud] at hsz
      simp only [copyLoop, crossIdx]
      rw [if_neg hc, if_neg hx, hsz]
      simp [List.append_assoc]

theorem copyLoop_delete_eq (nm : String) (maxFS : Nat) (p : String) :
    ∀ (data : List Bytes) (size : Nat) (acc : Bytes),
    (copyLoop nm maxFS p data size acc).2.2.1 =
      ((copyLoop nm maxFS p data size acc).2.2.2.1).isSome := by
  intro data
  induction data with
  | nil => intro size acc; rfl
  | cons c rest ih =>
    intro size acc
    simp only [copyLoop]
    by_cases hc : maxFS < size + c.length
    · rw [if_pos hc]; rfl
    · rw [if_neg hc]
      exact ih (size + c.length) (acc ++ c)

/-! ### Probe-loop lemmas -/

theorem uniqueFileAux_fresh (fs : FS) (orig : String) :
    ∀ (ts : List Nat) (cand r : String),
    (uniqueFileAux fs orig cand ts).1 = some r → FS.hasPath fs r = false := by
  intro ts
  induction ts with
  | nil =>
    intro cand r h
    by_cases hc : FS.hasPath fs cand
    · simp [uniqueFileAux, hc] at h
    · simp [uniqueFileAux, hc] at h
      rw [← h]
      simpa using hc
  | cons t ts ih =>
    intro cand r h
    by_cases hc : FS.hasPath fs cand
    · simp [uniqueFileAux, hc] at h
      exact ih (timestampCandidate orig t) r h
    · simp [uniqueFileAux, hc] at h
      rw [← h]
      simpa using hc

theorem uniqueFileAux_mem (fs : FS) (orig : String) :
    ∀ (ts : List Nat) (cand r : String),
    (uniqueFileAux fs orig cand ts).1 = some r →
    r = cand ∨ ∃ t ∈ ts, r = timestampCandidate orig t := by
  intro ts
  induction ts with
  | nil =>
    intro cand r h
    by_cases hc : FS.hasPath fs cand
    · simp [uniqueFileAux, hc] at h
    · simp [uniqueFileAux, hc] at h
      exact Or.inl h.symm
  | cons t ts ih =>
    intro cand r h
    by_cases hc : FS.hasPath fs cand
    · simp [uniqueFileAux, hc] at h
      rcases ih (timestampCandidate orig t) r h with h1 | ⟨t', ht', h2⟩
      · exact Or.inr ⟨t, List.mem_cons_self t ts, h1⟩
      · exact Or.inr ⟨t', List.mem_cons_of_mem t ht', h2⟩
    · simp [uniqueFileAux, hc] at h
      exact Or.inl h.symm

theorem uniqueFileAux_found (fs : FS) (orig : String) :
    ∀ (ts : List Nat) (cand : String), FS.hasPath fs cand = false →
    uniqueFileAux fs orig cand ts = (some cand, [Ev.statE cand]) := by
  intro ts cand h
  cases ts <;> simp [uniqueFileAux, h]

theorem uniqueFileAux_terminates (fs : FS) (orig : String) :
    ∀ (ts : List Nat) (cand : String),
    (∃ t ∈ ts, FS.hasPath fs (timestampCandidate orig t) = false) →
    (uniqueFileAux fs orig cand ts).1.isSome = true := by
  intro ts
  induction ts with
  | nil =>
    intro cand h
    simp at h
  | cons t ts ih =>
    intro cand h
    by_cases hc : FS.hasPath fs cand
    · simp only [uniqueFileAux, hc, if_pos]
      rcases h with ⟨t', ht', hfr⟩
      rcases List.mem_cons.mp ht' with rfl | ht'
      · rw [uniqueFileAux_found fs orig ts _ hfr]
        rfl
      · by_cases hc2 : FS.hasPath fs (timestampCandidate orig t)
        · exact ih (timestampCandidate orig t) ⟨t', ht', hfr⟩
        · rw [uniqueFileAux_found fs orig ts _ (by simpa using hc2)]
          rfl
    · rw [uniqueFileAux_found fs orig _ cand (by simpa using hc)]
      rfl

theorem uniqueFileAux_evs_stat (fs : FS) (orig : String) :
    ∀ (ts : List Nat) (cand : String) (g : Ev → Bool),
    (∀ q, g (Ev.statE q) = false) →
    ((uniqueFileAux fs orig cand ts).2).filter g = [] := by
  intro ts
  induction ts with
  | nil =>
    intro cand g hg
    by_cases hc : FS.hasPath fs cand <;> simp [uniqueFileAux, hc, hg]
  | cons t ts ih =>
    intro cand g hg
    by_cases hc : FS.hasPath fs cand
    · simp only [uniqueFileAux, hc, if_pos]
      simp [List.filter_cons, hg, ih (timestampCandidate orig t) g hg]
    · simp [uniqueFileAux, hc, hg]

/-! ### Handler-level lemmas -/

theorem FS.hasPath_false (fs : FS) (p : String) :
    FS.hasPath fs p = false ↔ FS.lookup fs p = none := by
  cases h : FS.lookup fs p <;> simp [FS.hasPath, h]

theorem probe_fst (cfg : UploadConfig) (ts : List Nat) (fs : FS)
    (p fp : String) (pevs : List Ev) (hav : cfg.avoidFileConflicts = true)
    (h : probeFilepath cfg ts fs p = (some fp, pevs)) :
    (uniqueFileAux fs p p ts).1 = some fp := by
  have h1 := congrArg Prod.fst h
  simpa [probeFilepath, hav, uniqueFile] using h1

theorem probe_evs_filter (cfg : UploadConfig) (ts : List Nat) (fs : FS)
    (p : String) (o : Option String) (pevs : List Ev) (g : Ev → Bool)
    (h : probeFilepath cfg ts fs p = (o, pevs))
    (hg : ∀ q, g (Ev.statE q) = false) :
    pevs.filter g = [] := by
  have h2 := congrArg Prod.snd h
  by_cases hav : cfg.avoidFileConflicts
  · simp only [probeFilepath, hav, if_pos, uniqueFile] at h2
    rw [← h2]
    exact uniqueFileAux_evs_stat fs p ts p g hg
  · simp only [probeFilepath, hav, if_neg, ite_false] at h2
    rw [← h2]
    rfl

theorem handler_success_eq (cfg : UploadConfig) (ts : List Nat) (fs : FS)
    (part : UploadPart) (d pth fp : String) (pevs : List Ev)
    (hf : filterPasses cfg part = true)
    (hd : dirValue cfg part = some d)
    (hp : fileValue cfg part = some pth)
    (hprobe : probeFilepath cfg ts fs (resolveJoin (resolveAbs d) pth)
      = (some fp, pevs))
    (hsize : totalLen part.data ≤ cfg.maxFileSize) :
    createFileUploadHandler cfg ts fs part =
      some ⟨Except.ok (some ⟨fp, (totalLen part.data : Int), part.contentType, none⟩),
            FS.set (FS.set fs fp []) fp part.data.flatten,
            (pevs ++ [Ev.mkdirE (dirnameStr fp), Ev.openW fp])
              ++ part.data.map (Ev.writeE fp) ++ [Ev.closeW fp]⟩ := by
  have hw := copyLoop_within part.name cfg.maxFileSize fp part.data 0 []
    (by omega)
  simp only [createFileUploadHandler, hf, hd, hp, hprobe, hw]
  simp

theorem handler_exceed_eq (cfg : UploadConfig) (ts : List Nat) (fs : FS)
    (part : UploadPart) (d pth fp : String) (pevs : List Ev)
    (hf : filterPasses cfg part = true)
    (hd : dirValue cfg part = some d)
    (hp : fileValue cfg part = some pth)
    (hprobe : probeFilepath cfg ts fs (resolveJoin (resolveAbs d) pth)
      = (some fp, pevs))
    (hsize : cfg.maxFileSize < totalLen part.data) :
    createFileUploadHandler cfg ts fs part =
      some ⟨Except.error ⟨part.name, cfg.maxFileSize⟩,
            FS.remove (FS.set (FS.set fs fp [])
              fp (part.data.take (crossIdx cfg.maxFileSize part.data)).flatten) fp,
            (pevs ++ [Ev.mkdirE (dirnameStr fp), Ev.openW fp])
              ++ (part.data.take (crossIdx cfg.maxFileSize part.data)).map (Ev.writeE fp)
              ++ [Ev.closeW fp] ++ [Ev.rmE fp]⟩ := by
  obtain ⟨sz, hw⟩ := copyLoop_exceed part.name cfg.maxFileSize fp part.data 0 []
    (Nat.zero_le _) (by omega)
  rw [Nat.sub_zero] at hw
  simp only [createFileUploadHandler, hf, hd, hp, hprobe, hw]
  simp

theorem handler_success_inv (cfg : UploadConfig) (ts : List Nat) (fs : FS)
    (part : UploadPart) (f : NodeOnDiskFile) (fs' : FS) (tr : List Ev)
    (hav : cfg.avoidFileConflicts = true)
    (hrun : createFileUploadHandler cfg ts fs part
      = some ⟨Except.ok (some f), fs', tr⟩) :
    FS.lookup fs f.filepath = none ∧
    ∃ w, fs' = FS.set (FS.set fs f.filepath []) f.filepath w := by
  by_cases hf : filterPasses cfg part = false
  · simp [createFileUploadHandler, hf] at hrun
  have hf' : filterPasses cfg part = true := by
    revert hf; cases filterPasses cfg part <;> simp
  cases hd : dirValue cfg part with
  | none => simp [createFileUploadHandler, hf', hd] at hrun
  | some d =>
  cases hp : fileValue cfg part with
  | none => simp [createFileUploadHandler, hf', hd, hp] at hrun
  | some pth =>
  cases hprobe : probeFilepath cfg ts fs (resolveJoin (resolveAbs d) pth) with
  | mk o pevs =>
  cases o with
  | none => simp [createFileUploadHandler, hf', hd, hp, hprobe] at hrun
  | some fp =>
  simp only [createFileUploadHandler, hf', hd, hp, hprobe] at hrun
  rw [copyLoop_delete_eq part.name cfg.maxFileSize fp part.data 0 []] at hrun
  cases herr : (copyLoop part.name cfg.maxFileSize fp part.data 0 []).2.2.2.1 with
  | some e => rw [herr] at hrun; simp at hrun
  | none =>
    rw [herr] at hrun
    simp at hrun
    obtain ⟨hres, hfs, -⟩ := hrun
    have hfp : f.filepath = fp := by rw [← hres]
    have hfresh : FS.hasPath fs fp = false := by
      have h1 := probe_fst cfg ts fs (resolveJoin (resolveAbs d) pth) fp pevs hav hprobe
      exact uniqueFileAux_fresh fs _ ts _ fp h1
    constructor
    · rw [hfp]
      exact (FS.hasPath_false fs fp).mp hfresh
    · exact ⟨_, by rw [hfp, ← hfs]⟩

theorem runUploads_props (cfg : UploadConfig) (hav : cfg.avoidFileConflicts = true) :
    ∀ (runs : List (UploadPart × List Nat)) (fs : FS)
      (files : List NodeOnDiskFile) (fsF : FS),
    runUploads cfg fs runs = some (files, fsF) →
    (∀ f ∈ files, FS.lookup fs f.filepath = none) ∧
    (files.map NodeOnDiskFile.filepath).Nodup ∧
    (∀ f ∈ files, FS.hasPath fsF f.filepath = true) ∧
    (∀ q, (∀ f ∈ files, f.filepath ≠ q) → FS.lookup fsF q = FS.lookup fs q) := by
  intro runs
  induction runs with
  | nil =>
    intro fs files fsF h
    simp [runUploads] at h
    obtain ⟨rfl, rfl⟩ := h
    simp
  | cons run rest ih =>
    intro fs files fsF h
    obtain ⟨part, ts⟩ := run
    simp only [runUploads] at h
    cases hr : createFileUploadHandler cfg ts fs part with
    | none => rw [hr] at h; simp at h
    | some R =>
      rw [hr] at h
      obtain ⟨res, fs', tr⟩ := R
      cases res with
      | error e => simp at h
      | ok o =>
        cases o with
        | none => simp at h
        | some f =>
          simp only [] at h
          cases hrest : runUploads cfg fs' rest with
          | none => rw [hrest] at h; simp at h
          | some pr =>
            rw [hrest] at h
            obtain ⟨files', fsF'⟩ := pr
            simp at h
            obtain ⟨rfl, rfl⟩ := h
            obtain ⟨hfresh, w, hfs'⟩ := handler_success_inv cfg ts fs part f fs' tr hav hr
            obtain ⟨ih1, ih2, ih3, ih4⟩ := ih fs' files' fsF' hrest
            have hfw : FS.lookup fs' f.filepath = some w := by
              rw [hfs', FS.lookup_set]
              simp
            have hne : ∀ g ∈ files', g.filepath ≠ f.filepath := by
              intro g hg hgq
              have := ih1 g hg
              rw [hgq, hfw] at this
              exact Option.noConfusion this
            have hframe : ∀ q, q ≠ f.filepath → FS.lookup fs' q = FS.lookup fs q := by
              intro q hq
              rw [hfs', FS.lookup_set, FS.lookup_set, if_neg hq, if_neg hq]
            refine ⟨?_, ?_, ?_, ?_⟩
            · intro g hg
              rcases List.mem_cons.mp hg with rfl | hg
              · exact hfresh
              · rw [← hframe g.filepath (hne g hg)]
                exact ih1 g hg
            · simp only [List.map_cons, List.nodup_cons]
              refine ⟨?_, ih2⟩
              intro hmem
              obtain ⟨g, hg, hgq⟩ := List.mem_map.mp hmem
              exact hne g hg hgq
            · intro g hg
              rcases List.mem_cons.mp hg with rfl | hg
              · have : FS.lookup fsF' g.filepath = FS.lookup fs' g.filepath := by
                  apply ih4
                  intro g' hg'
                  exact hne g' hg'
                rw [FS.hasPath, this, hfw]
                rfl
              · exact ih3 g hg
            · intro q hq
              have h1 : FS.lookup fsF' q = FS.lookup fs' q := by
                apply ih4
                intro g hg
                exact hq g (List.mem_cons_of_mem f hg)
              have h2 : q ≠ f.filepath :=
                fun hqq => hq f (List.mem_cons_self f files') hqq.symm
              rw [h1, hframe q h2]

/-! ### Miscellaneous helper lemmas -/

theorem totalLen_flatten (l : List Bytes) : totalLen l = l.flatten.length := by
  induction l with
  | nil => rfl
  | cons c rest ih => simp [totalLen_cons, ih]

theorem dropWhile_head_false {α : Type} {p : α → Bool} :
    ∀ (l : List α) (x : α) (w : List α), l.dropWhile p = x :: w → p x = false := by
  intro l
  induction l with
  | nil => intro x w h; cases h
  | cons a l ih =>
    intro x w h
    by_cases hp : p a
    · rw [List.dropWhile_cons_of_pos hp] at h
      exact ih x w h
    · rw [List.dropWhile_cons_of_neg hp] at h
      cases h
      simpa using hp

theorem String.mk_toList (s : String) : String.mk s.toList = s := rfl

theorem String.mk_append (a b : List Char) :
    String.mk a ++ String.mk b = String.mk (a ++ b) := rfl

theorem String.toList_mk (l : List Char) : (String.mk l).toList = l := rfl

theorem extnameCharsOf_decomp (cs : List Char) (hne : extnameCharsOf cs ≠ []) :
    cs.take (cs.length - (extnameCharsOf cs).length) ++ extnameCharsOf cs = cs := by
  have hsplit1 : cs.reverse
      = (basenameChars cs).reverse ++ cs.reverse.dropWhile (fun c => c != '/') := by
    simp only [basenameChars, List.reverse_reverse]
    exact (List.takeWhile_append_dropWhile _ _).symm
  by_cases h1 : ((basenameChars cs).reverse.takeWhile (fun c => c != '.')).length
      = (basenameChars cs).length
  · exact absurd (by simp only [extnameCharsOf]; rw [if_pos h1]) hne
  by_cases h2 : (basenameChars cs).length
      - ((basenameChars cs).reverse.takeWhile (fun c => c != '.')).length - 1 = 0
  · exact absurd (by simp only [extnameCharsOf]; rw [if_neg h1, if_pos h2]) hne
  have hext : extnameCharsOf cs
      = '.' :: ((basenameChars cs).reverse.takeWhile (fun c => c != '.')).reverse := by
    simp only [extnameCharsOf]
    rw [if_neg h1, if_neg h2]
  have hsplit2 : (basenameChars cs).reverse
      = (basenameChars cs).reverse.takeWhile (fun c => c != '.')
        ++ (basenameChars cs).reverse.dropWhile (fun c => c != '.') :=
    (List.takeWhile_append_dropWhile _ _).symm
  obtain ⟨x, w, hxw⟩ : ∃ x w,
      (basenameChars cs).reverse.dropWhile (fun c => c != '.') = x :: w := by
    cases hc : (basenameChars cs).reverse.dropWhile (fun c => c != '.') with
    | nil =>
      exfalso
      apply h1
      have hlen := congrArg List.length hsplit2
      rw [hc] at hlen
      simp at hlen
      omega
    | cons x w => exact ⟨x, w, rfl⟩
  have hx : x = '.' := by simpa using dropWhile_head_false _ x w hxw
  subst hx
  have hbrev : (basenameChars cs).reverse
      = (basenameChars cs).reverse.takeWhile (fun c => c != '.') ++ '.' :: w :=
    hsplit2.trans (by rw [hxw])
  have hcsrev : cs.reverse
      = ((basenameChars cs).reverse.takeWhile (fun c => c != '.') ++ '.' :: w)
        ++ cs.reverse.dropWhile (fun c => c != '/') :=
    hsplit1.trans
      (congrArg (fun l => l ++ cs.reverse.dropWhile (fun c => c != '/')) hbrev)
  have hcs : cs
      = ((cs.reverse.dropWhile (fun c => c != '/')).reverse ++ w.reverse)
        ++ ('.' :: ((basenameChars cs).reverse.takeWhile (fun c => c != '.')).reverse) := by
    have h0 : cs = cs.reverse.reverse := (List.reverse_reverse cs).symm
    rw [hcsrev] at h0
    exact h0.trans (by simp [List.reverse_append, List.reverse_cons, List.append_assoc])
  rw [hext]
  revert hcs
  generalize ('.' :: ((basenameChars cs).reverse.takeWhile (fun c => c != '.')).reverse : List Char) = E
  generalize (((cs.reverse.dropWhile (fun c => c != '/')).reverse ++ w.reverse : List Char)) = A
  intro hcs
  subst hcs
  have hA : (A ++ E).length - E.length = A.length := by
    simp
  rw [hA, List.take_left]

theorem extname_decomp (p : String) (hne : extnameStr p ≠ "") :
    stripExtStr p (extnameStr p) ++ extnameStr p = p := by
  have hne2 : extnameCharsOf p.toList ≠ [] := by
    intro h
    apply hne
    unfold extnameStr
    rw [h]
  have hchars := extnameCharsOf_decomp p.toList hne2
  simp only [stripExtStr, extnameStr, String.toList_mk, String.mk_append]
  rw [hchars]
  exact String.mk_toList p

/-! ### Claim theorems -/

/-- C9: the `contentType` argument of `slice(start, end, contentType)` is
ignored: for every handle and every `contentType` value passed, the
returned handle's `type` equals the original's `type` and the backing
path is unchanged. -/
theorem claim9_slice_ignores_contentType (f : NodeOnDiskFile)
    (start? end? : Option Int) (ct : Option String) :
    (f.slice start? end? ct).type = f.type ∧
    (f.slice start? end? ct).filepath = f.filepath :=
  ⟨rfl, rfl⟩

/-- C10: `slice` performs no bounds normalisation or clamping: for any
explicitly supplied `start` and `end` (negative, inverted or past the
readable bytes included, since they range over all integers), the
returned handle's `size` is exactly `end - start`. -/
theorem claim10_slice_no_clamping (f : NodeOnDiskFile) (s e : Int)
    (ct : Option String) :
    (f.slice (some s) (some e) ct).size = e - s :=
  rfl

/-- C8: `text()` returns exactly the default-encoding decode of the bytes
that `arrayBuffer()` returns, built over the same fresh-stream-plus-slicer
pipeline (same resulting handle state, same events). -/
theorem claim8_text_is_decoded_arrayBuffer (fs : FS) (f : NodeOnDiskFile) :
    (NodeOnDiskFile.text fs f).1
      = (NodeOnDiskFile.arrayBuffer fs f).1.map readableStreamToString ∧
    (NodeOnDiskFile.text fs f).2 = (NodeOnDiskFile.arrayBuffer fs f).2 := by
  cases h : FS.lookup fs f.filepath with
  | none =>
    simp [NodeOnDiskFile.text, NodeOnDiskFile.arrayBuffer, h, Except.map]
  | some bs =>
    cases hs : f.slicer with
    | none =>
      simp [NodeOnDiskFile.text, NodeOnDiskFile.arrayBuffer, h, hs, Except.map]
    | some st =>
      by_cases he : st.ended <;>
        simp [NodeOnDiskFile.text, NodeOnDiskFile.arrayBuffer, h, hs, he,
          Except.map]

/-- C5: when the filter rejects the field, or the directory resolver or
the file resolver yields no (truthy) value, the handler returns an absent
result, the filesystem is unchanged, and no filesystem operation at all is
performed. -/
theorem claim5_skip_leaves_fs_untouched (cfg : UploadConfig) (ts : List Nat)
    (fs : FS) (part : UploadPart)
    (h : filterPasses cfg part = false ∨ dirValue cfg part = none
      ∨ fileValue cfg part = none) :
    createFileUploadHandler cfg ts fs part = some ⟨Except.ok none, fs, []⟩ := by
  rcases h with h | h | h
  · simp [createFileUploadHandler, h]
  · by_cases hf : filterPasses cfg part = false
    · simp [createFileUploadHandler, hf]
    · simp [createFileUploadHandler, hf, h]
  · by_cases hf : filterPasses cfg part = false
    · simp [createFileUploadHandler, hf]
    · cases hd : dirValue cfg part with
      | none => simp [createFileUploadHandler, hf, hd]
      | some d => simp [createFileUploadHandler, hf, hd, h]

/-- Witness for C5 at a concrete rejecting filter. -/
theorem claim5_witness :
    createFileUploadHandler
      ⟨PathConfig.lit "/up", true, PathConfig.lit "a.txt",
       some (fun _ _ _ => false), 100⟩ [] []
      ⟨"avatar", "pic.png", "image/png", [[1, 2]]⟩
      = some ⟨Except.ok none, [], []⟩ :=
  claim5_skip_leaves_fs_untouched _ _ _ _ (Or.inl rfl)

/-- C3: `slice(start, end, ct)` on an unsliced handle whose backing file
holds its `size` bytes shares the backing path, has size `end - start`,
and its `readAll` (`arrayBuffer`) opens one fresh read stream (the only
event) and yields exactly bytes `[start, end)` of the original content;
`slice()` with no arguments yields the full content unchanged. -/
theorem claim3_slice_readAll_window (fs : FS) (f : NodeOnDiskFile) (c : Bytes)
    (s e : Int) (ct : Option String)
    (hc : FS.lookup fs f.filepath = some c)
    (hlen : (c.length : Int) = f.size)
    (hns : f.slicer = none)
    (h0 : 0 ≤ s) (hse : s ≤ e) (heS : e ≤ f.size) :
    (f.slice (some s) (some e) ct).filepath = f.filepath ∧
    (f.slice (some s) (some e) ct).size = e - s ∧
    (NodeOnDiskFile.arrayBuffer fs (f.slice (some s) (some e) ct)).1
      = Except.ok ((c.take e.toNat).drop s.toNat) ∧
    (NodeOnDiskFile.arrayBuffer fs (f.slice (some s) (some e) ct)).2.2
      = [Ev.openR f.filepath] ∧
    (NodeOnDiskFile.arrayBuffer fs (f.slice none none none)).1 = Except.ok c := by
  refine ⟨rfl, rfl, ?_, ?_, ?_⟩
  · simp [NodeOnDiskFile.arrayBuffer, NodeOnDiskFile.slice, hc, windowBytes]
  · simp [NodeOnDiskFile.arrayBuffer, NodeOnDiskFile.slice, hc]
  · simp [NodeOnDiskFile.arrayBuffer, NodeOnDiskFile.slice, hc, windowBytes]
    rw [← hlen]
    simp

/-- Witness for C3 on a five-byte file sliced to `[1, 3)`. -/
theorem claim3_witness :
    (NodeOnDiskFile.arrayBuffer [("/f", [1, 2, 3, 4, 5])]
      (NodeOnDiskFile.slice ⟨"/f", 5, "t", none⟩ (some 1) (some 3) none)).1
      = Except.ok [2, 3] := by
  have h := claim3_slice_readAll_window [("/f", [1, 2, 3, 4, 5])]
    ⟨"/f", 5, "t", none⟩ [1, 2, 3, 4, 5] 1 3 none rfl (by decide) rfl
    (by decide) (by decide) (by decide)
  simpa using h.2.2.1

/-- C6: evaluation at the failing input.  An unsliced handle is
re-readable (two successive `readAll` calls both return the full
contents), but a sliced handle is not: the slicer transform stream is
created once by `slice()` and stored on the instance, so the second
`readAll` pipes a fresh read stream into the already-ended transform and
fails instead of returning the window again. -/
theorem claim6_sliced_read_not_repeatable :
    ((NodeOnDiskFile.arrayBuffer [("/t", [10, 20, 30, 40])]
        (NodeOnDiskFile.slice ⟨"/t", 4, "text/plain", none⟩
          (some 1) (some 3) none)).1
      = Except.ok [20, 30]) ∧
    ((NodeOnDiskFile.arrayBuffer [("/t", [10, 20, 30, 40])]
        ((NodeOnDiskFile.arrayBuffer [("/t", [10, 20, 30, 40])]
          (NodeOnDiskFile.slice ⟨"/t", 4, "text/plain", none⟩
            (some 1) (some 3) none)).2.1)).1
      = Except.error ReadErr.writeAfterEnd) ∧
    ((NodeOnDiskFile.arrayBuffer [("/t", [10, 20, 30, 40])]
        (⟨"/t", 4, "text/plain", none⟩ : NodeOnDiskFile)).1
      = Except.ok [10, 20, 30, 40]) ∧
    ((NodeOnDiskFile.arrayBuffer [("/t", [10, 20, 30, 40])]
        ((NodeOnDiskFile.arrayBuffer [("/t", [10, 20, 30, 40])]
          (⟨"/t", 4, "text/plain", none⟩ : NodeOnDiskFile)).2.1)).1
      = Except.ok [10, 20, 30, 40]) := by
  refine ⟨?_, ?_, ?_, ?_⟩ <;> rfl

/-- C1: when the field is not skipped and the cumulative streamed bytes
exceed `maxFileSize`, the handler fails with the size-limit error carrying
the field name and the configured limit, the destination file does not
exist afterwards (it is deleted before the error surfaces), and only the
chunks strictly before the one that crosses the threshold were ever
written (the crossing chunk is not written). -/
theorem claim1_size_limit_exceeded (cfg : UploadConfig) (ts : List Nat)
    (fs : FS) (part : UploadPart) (d pth fp : String) (pevs : List Ev)
    (hf : filterPasses cfg part = true)
    (hd : dirValue cfg part = some d)
    (hp : fileValue cfg part = some pth)
    (hprobe : probeFilepath cfg ts fs (resolveJoin (resolveAbs d) pth)
      = (some fp, pevs))
    (hover : cfg.maxFileSize < totalLen part.data) :
    ∃ fs' tr, createFileUploadHandler cfg ts fs part
        = some ⟨Except.error ⟨part.name, cfg.maxFileSize⟩, fs', tr⟩ ∧
      FS.lookup fs' fp = none ∧
      tr.filter evIsWrite
        = (part.data.take (crossIdx cfg.maxFileSize part.data)).map
            (Ev.writeE fp) := by
  refine ⟨_, _, handler_exceed_eq cfg ts fs part d pth fp pevs
    hf hd hp hprobe hover, ?_, ?_⟩
  · rw [FS.lookup_remove]
    simp
  · have hstat := probe_evs_filter cfg ts fs _ _ _ evIsWrite hprobe
      (fun q => rfl)
    simp only [List.filter_append, hstat]
    have hmap : ∀ l : List Bytes,
        (l.map (Ev.writeE fp)).filter evIsWrite = l.map (Ev.writeE fp) := by
      intro l
      induction l with
      | nil => rfl
      | cons a l ih => simp [List.filter_cons, evIsWrite, ih]
    rw [hmap]
    simp [evIsWrite, List.filter_cons]

/-- Witness for C1: a 12-byte upload in two 6-byte chunks against a
10-byte limit; only the first chunk is written and the file is gone. -/
theorem claim1_witness :
    ∃ fs' tr, createFileUploadHandler
        ⟨PathConfig.lit "/up", false, PathConfig.lit "a.txt", none, 10⟩ [] []
        ⟨"avatar", "pic.png", "image/png",
         [[1, 2, 3, 4, 5, 6], [7, 8, 9, 10, 11, 12]]⟩
        = some ⟨Except.error ⟨"avatar", 10⟩, fs', tr⟩ ∧
      FS.lookup fs' "/up/a.txt" = none ∧
      tr.filter evIsWrite = [Ev.writeE "/up/a.txt" [1, 2, 3, 4, 5, 6]] := by
  have h := claim1_size_limit_exceeded
    ⟨PathConfig.lit "/up", false, PathConfig.lit "a.txt", none, 10⟩ [] []
    ⟨"avatar", "pic.png", "image/png",
     [[1, 2, 3, 4, 5, 6], [7, 8, 9, 10, 11, 12]]⟩
    "/up" "a.txt" "/up/a.txt" [] rfl rfl rfl (by decide)
    (by decide)
  simpa using h

/-- C2: when the field is not skipped and the cumulative streamed bytes
stay within `maxFileSize`, the handler returns a stored file whose `size`
equals exactly the number of bytes streamed, whose backing file holds
exactly the streamed bytes, and whose `readAll` (`arrayBuffer`) reproduces
the original byte sequence (round-trip). -/
theorem claim2_roundtrip (cfg : UploadConfig) (ts : List Nat) (fs : FS)
    (part : UploadPart) (d pth fp : String) (pevs : List Ev)
    (hf : filterPasses cfg part = true)
    (hd : dirValue cfg part = some d)
    (hp : fileValue cfg part = some pth)
    (hprobe : probeFilepath cfg ts fs (resolveJoin (resolveAbs d) pth)
      = (some fp, pevs))
    (hsize : totalLen part.data ≤ cfg.maxFileSize) :
    ∃ fs' tr f, createFileUploadHandler cfg ts fs part
        = some ⟨Except.ok (some f), fs', tr⟩ ∧
      f.filepath = fp ∧
      f.size = (part.data.flatten.length : Int) ∧
      FS.lookup fs' f.filepath = some part.data.flatten ∧
      (NodeOnDiskFile.arrayBuffer fs' f).1 = Except.ok part.data.flatten := by
  refine ⟨_, _, _, handler_success_eq cfg ts fs part d pth fp pevs
    hf hd hp hprobe hsize, rfl, ?_, ?_, ?_⟩
  · simp [totalLen_flatten]
  · simp [FS.lookup_set]
  · simp [NodeOnDiskFile.arrayBuffer, FS.lookup_set]

/-- Witness for C2: a 12-byte upload in two chunks against a 100-byte
limit round-trips. -/
theorem claim2_witness :
    ∃ fs' tr f, createFileUploadHandler
        ⟨PathConfig.lit "/up", false, PathConfig.lit "a.txt", none, 100⟩ [] []
        ⟨"avatar", "pic.png", "image/png",
         [[1, 2, 3, 4, 5, 6], [7, 8, 9, 10, 11, 12]]⟩
        = some ⟨Except.ok (some f), fs', tr⟩ ∧
      f.filepath = "/up/a.txt" ∧
      f.size = (12 : Int) ∧
      FS.lookup fs' f.filepath = some [1, 2, 3, 4, 5, 6, 7, 8, 9, 10, 11, 12] ∧
      (NodeOnDiskFile.arrayBuffer fs' f).1
        = Except.ok [1, 2, 3, 4, 5, 6, 7, 8, 9, 10, 11, 12] := by
  have h := claim2_roundtrip
    ⟨PathConfig.lit "/up", false, PathConfig.lit "a.txt", none, 100⟩ [] []
    ⟨"avatar", "pic.png", "image/png",
     [[1, 2, 3, 4, 5, 6], [7, 8, 9, 10, 11, 12]]⟩
    "/up" "a.txt" "/up/a.txt" [] rfl rfl rfl (by decide) (by decide)
  simpa using h

/-- C7: whenever the field is not skipped (the streaming phase is
reached), the destination write handle is opened exactly once and closed
exactly once, on the normal-completion path and on the size-limit abort
path alike. -/
theorem claim7_write_handle_closed_once (cfg : UploadConfig) (ts : List Nat)
    (fs : FS) (part : UploadPart) (d pth fp : String) (pevs : List Ev)
    (hf : filterPasses cfg part = true)
    (hd : dirValue cfg part = some d)
    (hp : fileValue cfg part = some pth)
    (hprobe : probeFilepath cfg ts fs (resolveJoin (resolveAbs d) pth)
      = (some fp, pevs)) :
    ∃ r, createFileUploadHandler cfg ts fs part = some r ∧
      (r.trace.filter evIsClose).length = 1 ∧
      (r.trace.filter evIsOpenW).length = 1 := by
  have hstatC := probe_evs_filter cfg ts fs _ _ _ evIsClose hprobe
    (fun q => rfl)
  have hstatO := probe_evs_filter cfg ts fs _ _ _ evIsOpenW hprobe
    (fun q => rfl)
  have hmapC : ∀ l : List Bytes,
      (l.map (Ev.writeE fp)).filter evIsClose = [] := by
    intro l
    induction l with
    | nil => rfl
    | cons a l ih => simp [List.filter_cons, evIsClose, ih]
  have hmapO : ∀ l : List Bytes,
      (l.map (Ev.writeE fp)).filter evIsOpenW = [] := by
    intro l
    induction l with
    | nil => rfl
    | cons a l ih => simp [List.filter_cons, evIsOpenW, ih]
  by_cases hsize : totalLen part.data ≤ cfg.maxFileSize
  · refine ⟨_, handler_success_eq cfg ts fs part d pth fp pevs
      hf hd hp hprobe hsize, ?_, ?_⟩
    · simp only [List.filter_append, hstatC, hmapC]
      simp [evIsClose, List.filter_cons]
    · simp only [List.filter_append, hstatO, hmapO]
      simp [evIsOpenW, List.filter_cons]
  · refine ⟨_, handler_exceed_eq cfg ts fs part d pth fp pevs
      hf hd hp hprobe (by omega), ?_, ?_⟩
    · simp only [List.filter_append, hstatC, hmapC]
      simp [evIsClose, List.filter_cons]
    · simp only [List.filter_append, hstatO, hmapO]
      simp [evIsOpenW, List.filter_cons]

/-- Witness for C7 on the size-limit abort path. -/
theorem claim7_witness :
    ∃ r, createFileUploadHandler
        ⟨PathConfig.lit "/up", false, PathConfig.lit "a.txt", none, 10⟩ [] []
        ⟨"avatar", "pic.png", "image/png",
         [[1, 2, 3, 4, 5, 6], [7, 8, 9, 10, 11, 12]]⟩
        = some r ∧
      (r.trace.filter evIsClose).length = 1 ∧
      (r.trace.filter evIsOpenW).length = 1 :=
  claim7_write_handle_closed_once
    ⟨PathConfig.lit "/up", false, PathConfig.lit "a.txt", none, 10⟩ [] []
    ⟨"avatar", "pic.png", "image/png",
     [[1, 2, 3, 4, 5, 6], [7, 8, 9, 10, 11, 12]]⟩
    "/up" "a.txt" "/up/a.txt" [] rfl rfl rfl (by decide)

/-- C4: conflict avoidance.  (i) any path returned by the probe loop does
not exist on disk, and when the first candidate existed the result
differs from it and is one of the timestamp-derived candidates; (ii) the
loop stops at once on a non-existing first candidate; (iii) it terminates
as soon as some clock read yields a non-existing candidate; (iv) a
timestamp candidate is the original path with `-<timestamp>` inserted
before the (preserved) extension; (v) repeating the upload N times with
conflict avoidance yields N distinct paths, all present at the end, and
every untouched path keeps its contents (no existing file overwritten). -/
theorem claim4_conflict_avoidance :
    (∀ (fs : FS) (p0 : String) (ts : List Nat) (r : String),
      (uniqueFile fs p0 ts).1 = some r →
      FS.hasPath fs r = false ∧
      (FS.hasPath fs p0 = true →
        r ≠ p0 ∧ ∃ t ∈ ts, r = timestampCandidate p0 t)) ∧
    (∀ (fs : FS) (p0 : String) (ts : List Nat),
      FS.hasPath fs p0 = false →
      uniqueFile fs p0 ts = (some p0, [Ev.statE p0])) ∧
    (∀ (fs : FS) (p0 : String) (ts : List Nat),
      (∃ t ∈ ts, FS.hasPath fs (timestampCandidate p0 t) = false) →
      ((uniqueFile fs p0 ts).1).isSome = true) ∧
    (∀ (p0 : String) (t : Nat), extnameStr p0 ≠ "" →
      timestampCandidate p0 t
        = stripExtStr p0 (extnameStr p0) ++ "-" ++ toString t
          ++ extnameStr p0 ∧
      stripExtStr p0 (extnameStr p0) ++ extnameStr p0 = p0) ∧
    (∀ (cfg : UploadConfig) (fs : FS) (runs : List (UploadPart × List Nat))
      (files : List NodeOnDiskFile) (fsF : FS),
      cfg.avoidFileConflicts = true →
      runUploads cfg fs runs = some (files, fsF) →
      (files.map NodeOnDiskFile.filepath).Nodup ∧
      (∀ f ∈ files, FS.hasPath fsF f.filepath = true) ∧
      (∀ q, (∀ f ∈ files, f.filepath ≠ q) →
        FS.lookup fsF q = FS.lookup fs q)) := by
  refine ⟨?_, ?_, ?_, ?_, ?_⟩
  · intro fs p0 ts r h
    have hfr := uniqueFileAux_fresh fs p0 ts p0 r h
    refine ⟨hfr, ?_⟩
    intro hex
    have hne : r ≠ p0 := by
      intro heq
      rw [heq, hex] at hfr
      exact Bool.noConfusion hfr
    rcases uniqueFileAux_mem fs p0 ts p0 r h with heq | hmem
    · exact absurd heq hne
    · exact ⟨hne, hmem⟩
  · intro fs p0 ts h
    exact uniqueFileAux_found fs p0 ts p0 h
  · intro fs p0 ts h
    exact uniqueFileAux_terminates fs p0 ts p0 h
  · intro p0 t hne
    refine ⟨?_, extname_decomp p0 hne⟩
    simp [timestampCandidate, hne]
  · intro cfg fs runs files fsF hav hrun
    obtain ⟨-, h2, h3, h4⟩ := runUploads_props cfg hav runs fs files fsF hrun
    exact ⟨h2, h3, h4⟩

/-- Witness for C4 at concrete inputs: a probe over an occupied path picks
the timestamped candidate; an unoccupied path is returned at once; the
loop finds a candidate; `-7` is inserted before a preserved `.txt`; and a
repeated two-run upload yields two distinct files, both present, with
untouched paths unchanged. -/
theorem claim4_witness :
    (FS.hasPath [("/up/a.txt", [9])] "/up/a-5.txt" = false ∧
      ("/up/a-5.txt" : String) ≠ "/up/a.txt" ∧
      ∃ t ∈ ([5] : List Nat),
        "/up/a-5.txt" = timestampCandidate "/up/a.txt" t) ∧
    (uniqueFile [("/up/a.txt", [9])] "/nb" []
      = (some "/nb", [Ev.statE "/nb"])) ∧
    (((uniqueFile [("/up/a.txt", [9])] "/up/a.txt" [5]).1).isSome = true) ∧
    (timestampCandidate "/x/f.txt" 7
      = stripExtStr "/x/f.txt" (extnameStr "/x/f.txt") ++ "-" ++ toString 7
        ++ extnameStr "/x/f.txt" ∧
      stripExtStr "/x/f.txt" (extnameStr "/x/f.txt") ++ extnameStr "/x/f.txt"
        = "/x/f.txt") ∧
    (([⟨"/up/a.txt", 5, "image/png", none⟩,
       ⟨"/up/a-8.txt", 5, "image/png", none⟩]
        : List NodeOnDiskFile).map NodeOnDiskFile.filepath).Nodup ∧
    (∀ f ∈ ([⟨"/up/a.txt", 5, "image/png", none⟩,
       ⟨"/up/a-8.txt", 5, "image/png", none⟩] : List NodeOnDiskFile),
      FS.hasPath [("/up/a-8.txt", [1, 2, 3, 4, 5]),
        ("/up/a.txt", [1, 2, 3, 4, 5])] f.filepath = true) ∧
    (∀ q, (∀ f ∈ ([⟨"/up/a.txt", 5, "image/png", none⟩,
        ⟨"/up/a-8.txt", 5, "image/png", none⟩] : List NodeOnDiskFile),
        f.filepath ≠ q) →
      FS.lookup [("/up/a-8.txt", [1, 2, 3, 4, 5]),
        ("/up/a.txt", [1, 2, 3, 4, 5])] q = FS.lookup [] q) := by
  have h1 := claim4_conflict_avoidance.1 [("/up/a.txt", [9])] "/up/a.txt" [5]
    "/up/a-5.txt" (by decide)
  have h2 := claim4_conflict_avoidance.2.1 [("/up/a.txt", [9])] "/nb" []
    (by decide)
  have h3 := claim4_conflict_avoidance.2.2.1 [("/up/a.txt", [9])] "/up/a.txt"
    [5] ⟨5, by decide, by decide⟩
  have h4 := claim4_conflict_avoidance.2.2.2.1 "/x/f.txt" 7 (by decide)
  have h5 := claim4_conflict_avoidance.2.2.2.2
    ⟨PathConfig.lit "/up", true, PathConfig.lit "a.txt", none, 100⟩ []
    [(⟨"avatar", "pic.png", "image/png", [[1, 2, 3], [4, 5]]⟩, [7]),
     (⟨"avatar", "pic.png", "image/png", [[1, 2, 3], [4, 5]]⟩, [8])]
    [⟨"/up/a.txt", 5, "image/png", none⟩,
     ⟨"/up/a-8.txt", 5, "image/png", none⟩]
    [("/up/a-8.txt", [1, 2, 3, 4, 5]), ("/up/a.txt", [1, 2, 3, 4, 5])]
    rfl (by decide)
  exact ⟨⟨h1.1, h1.2 (by decide)⟩, h2, h3, h4, h5.1, h5.2.1, h5.2.2⟩
